import Mathlib

/-!
Verification of the authenticated decryption-key acquisition pipeline of the
mubi-downloader repository.  The Python sources are embedded shallowly:
strings become `List Char`, byte strings become `List Nat` (with values below
256), fallible library calls (`base64.b64decode`, `json.loads`,
`bytes.fromhex`, HTTP requests) become `Option`/`Except`-valued functions, and
the network is an explicit environment argument.
-/

set_option autoImplicit false

/-! ## Base64 (Python `base64.b64encode` / `base64.b64decode`) -/

/-- The standard base64 alphabet. -/
def b64Alphabet : List Char :=
  "ABCDEFGHIJKLMNOPQRSTUVWXYZabcdefghijklmnopqrstuvwxyz0123456789+/".toList

/-- Character for a six-bit value. -/
def b64Char (n : Nat) : Char := b64Alphabet.getD n 'A'

/-- Six-bit value of an alphabet character, `none` for anything else. -/
def b64Index (c : Char) : Option Nat :=
  (List.range 64).find? (fun n => b64Alphabet.getD n 'A' = c)

/-- Base64-encode a byte list, three bytes to four characters, with `=`
padding, as `base64.b64encode` does. -/
def b64encodeBytes : List Nat → List Char
  | [] => []
  | [a] => [b64Char (a / 4), b64Char (a % 4 * 16), '=', '=']
  | [a, b] => [b64Char (a / 4), b64Char (a % 4 * 16 + b / 16), b64Char (b % 16 * 4), '=']
  | a :: b :: c :: rest =>
      b64Char (a / 4) :: b64Char (a % 4 * 16 + b / 16) :: b64Char (b % 16 * 4 + c / 64)
        :: b64Char (c % 64) :: b64encodeBytes rest

/-- Decode base64 four characters at a time; padding may close the final
group.  Stray bits below the padding are dropped, as CPython drops them. -/
def b64decodeQuads : List Char → Option (List Nat)
  | [] => some []
  | c1 :: c2 :: c3 :: c4 :: rest =>
      match b64Index c1, b64Index c2 with
      | some s1, some s2 =>
          if c3 = '=' then
            if c4 = '=' ∧ rest = [] then some [s1 * 4 + s2 / 16] else none
          else
            match b64Index c3 with
            | some s3 =>
                if c4 = '=' then
                  if rest = [] then some [s1 * 4 + s2 / 16, s2 % 16 * 16 + s3 / 4] else none
                else
                  match b64Index c4 with
                  | some s4 =>
                      (b64decodeQuads rest).map
                        (fun bs => (s1 * 4 + s2 / 16) :: (s2 % 16 * 16 + s3 / 4)
                          :: (s3 % 4 * 64 + s4) :: bs)
                  | none => none
            | none => none
      | _, _ => none
  | _ => none

/-- A character `base64.b64decode` keeps: alphabet or padding. -/
def b64Legal (c : Char) : Bool := (b64Index c).isSome || c = '='

/-- Python `base64.b64decode` with its default leniency: characters outside
the alphabet are discarded, then the remainder must form whole four-character
groups; `none` models the `binascii.Error`. -/
def pyB64decode (s : List Char) : Option (List Nat) :=
  let t := s.filter b64Legal
  if t.length % 4 = 0 then b64decodeQuads t else none

/-! ## Hex (Python `bytes.fromhex` and lowercase hex rendering) -/

/-- Value of one hex digit, accepting both cases as `bytes.fromhex` does. -/
def hexDigitVal (c : Char) : Option Nat :=
  if 48 ≤ c.toNat ∧ c.toNat ≤ 57 then some (c.toNat - 48)
  else if 97 ≤ c.toNat ∧ c.toNat ≤ 102 then some (c.toNat - 87)
  else if 65 ≤ c.toNat ∧ c.toNat ≤ 70 then some (c.toNat - 55)
  else none

/-- Python `bytes.fromhex` on a string with no whitespace: consume hex-digit
pairs; `none` models the `ValueError` on an odd length or a non-hex digit. -/
def hexDecode : List Char → Option (List Nat)
  | [] => some []
  | [_] => none
  | c1 :: c2 :: rest =>
      match hexDigitVal c1, hexDigitVal c2 with
      | some h1, some h2 => (hexDecode rest).map (fun bs => (h1 * 16 + h2) :: bs)
      | _, _ => none

/-- Lowercase hex digit for a value below 16. -/
def hexDigitChar (n : Nat) : Char := Char.ofNat (if n < 10 then n + 48 else n + 87)

/-- Lowercase hex rendering of a byte list. -/
def hexEncode : List Nat → List Char
  | [] => []
  | b :: bs => hexDigitChar (b / 16) :: hexDigitChar (b % 16) :: hexEncode bs

/-- A lowercase hex digit (the digits `0`-`9` and `a`-`f`). -/
def isLowerHexDigit (c : Char) : Bool :=
  decide (48 ≤ c.toNat ∧ c.toNat ≤ 57) || decide (97 ≤ c.toNat ∧ c.toNat ≤ 102)

/-! ## Base64 lemmas -/

theorem b64Index_b64Char : ∀ n : Fin 64, b64Index (b64Char n.val) = some n.val := by decide

theorem b64Char_ne_pad : ∀ n : Fin 64, b64Char n.val ≠ '=' := by decide

theorem b64Legal_b64Char {n : Nat} (h : n < 64) : b64Legal (b64Char n) = true := by
  have := b64Index_b64Char ⟨n, h⟩
  simp [b64Legal, this]

theorem b64encodeBytes_legal :
    ∀ bs : List Nat, (∀ b ∈ bs, b < 256) → ∀ c ∈ b64encodeBytes bs, b64Legal c = true := by
  intro bs
  induction bs using b64encodeBytes.induct with
  | case1 => intro _ c hc; simp [b64encodeBytes] at hc
  | case2 a =>
      intro h c hc
      have ha : a < 256 := h a (by simp)
      simp [b64encodeBytes] at hc
      rcases hc with h1 | h1 | h1 <;> subst h1 <;>
        first
        | exact b64Legal_b64Char (by omega)
        | simp [b64Legal]
  | case3 a b =>
      intro h c hc
      have ha : a < 256 := h a (by simp)
      have hb : b < 256 := h b (by simp)
      simp [b64encodeBytes] at hc
      rcases hc with h1 | h1 | h1 | h1 <;> subst h1 <;>
        first
        | exact b64Legal_b64Char (by omega)
        | simp [b64Legal]
  | case4 a b c rest ih =>
      intro h x hx
      have ha : a < 256 := h a (by simp)
      have hb : b < 256 := h b (by simp)
      have hc : c < 256 := h c (by simp)
      simp [b64encodeBytes] at hx
      rcases hx with h1 | h1 | h1 | h1 | h1
      · subst h1; exact b64Legal_b64Char (by omega)
      · subst h1; exact b64Legal_b64Char (by omega)
      · subst h1; exact b64Legal_b64Char (by omega)
      · subst h1; exact b64Legal_b64Char (by omega)
      · exact ih (fun y hy => h y (by simp [hy])) x h1

theorem b64encodeBytes_length_mod :
    ∀ bs : List Nat, (b64encodeBytes bs).length % 4 = 0 := by
  intro bs
  induction bs using b64encodeBytes.induct with
  | case1 => simp [b64encodeBytes]
  | case2 a => simp [b64encodeBytes]
  | case3 a b => simp [b64encodeBytes]
  | case4 a b c rest ih => simp [b64encodeBytes]; omega

theorem b64decodeQuads_b64encodeBytes :
    ∀ bs : List Nat, (∀ b ∈ bs, b < 256) →
      b64decodeQuads (b64encodeBytes bs) = some bs := by
  intro bs
  induction bs using b64encodeBytes.induct with
  | case1 => intro _; simp [b64encodeBytes, b64decodeQuads]
  | case2 a =>
      intro h
      have ha : a < 256 := h a (by simp)
      have h1 := b64Index_b64Char ⟨a / 4, by omega⟩
      have h2 := b64Index_b64Char ⟨a % 4 * 16, by omega⟩
      simp only [b64encodeBytes, b64decodeQuads, h1, h2]
      simp
      omega
  | case3 a b =>
      intro h
      have ha : a < 256 := h a (by simp)
      have hb : b < 256 := h b (by simp)
      have h1 := b64Index_b64Char ⟨a / 4, by omega⟩
      have h2 := b64Index_b64Char ⟨a % 4 * 16 + b / 16, by omega⟩
      have h3 := b64Index_b64Char ⟨b % 16 * 4, by omega⟩
      have hne := b64Char_ne_pad ⟨b % 16 * 4, by omega⟩
      simp only [b64encodeBytes, b64decodeQuads, h1, h2, h3, if_neg hne]
      simp
      constructor <;> omega
  | case4 a b c rest ih =>
      intro h
      have ha : a < 256 := h a (by simp)
      have hb : b < 256 := h b (by simp)
      have hc : c < 256 := h c (by simp)
      have h1 := b64Index_b64Char ⟨a / 4, by omega⟩
      have h2 := b64Index_b64Char ⟨a % 4 * 16 + b / 16, by omega⟩
      have h3 := b64Index_b64Char ⟨b % 16 * 4 + c / 64, by omega⟩
      have h4 := b64Index_b64Char ⟨c % 64, by omega⟩
      have hne3 := b64Char_ne_pad ⟨b % 16 * 4 + c / 64, by omega⟩
      have hne4 := b64Char_ne_pad ⟨c % 64, by omega⟩
      have ihr := ih (fun y hy => h y (by simp [hy]))
      simp only [b64encodeBytes, b64decodeQuads, h1, h2, h3, h4, if_neg hne3, if_neg hne4, ihr]
      simp
      refine ⟨by omega, by omega, by omega⟩

/-- Round trip: decoding an encoded byte list gives it back. -/
theorem pyB64decode_b64encodeBytes (bs : List Nat) (h : ∀ b ∈ bs, b < 256) :
    pyB64decode (b64encodeBytes bs) = some bs := by
  have hfilter : (b64encodeBytes bs).filter b64Legal = b64encodeBytes bs :=
    List.filter_eq_self.mpr (fun c hc => b64encodeBytes_legal bs h c hc)
  simp only [pyB64decode, hfilter, b64encodeBytes_length_mod bs, if_pos rfl]
  exact b64decodeQuads_b64encodeBytes bs h

/-- Base64 encoding is injective on byte lists. -/
theorem b64encodeBytes_inj {b1 b2 : List Nat} (h1 : ∀ b ∈ b1, b < 256)
    (h2 : ∀ b ∈ b2, b < 256) (he : b64encodeBytes b1 = b64encodeBytes b2) : b1 = b2 := by
  have r1 := pyB64decode_b64encodeBytes b1 h1
  have r2 := pyB64decode_b64encodeBytes b2 h2
  rw [he, r2] at r1
  exact (Option.some_inj.mp r1).symm

/-! ## Hex lemmas -/

theorem hexDigitVal_lt {c : Char} {v : Nat} (h : hexDigitVal c = some v) : v < 16 := by
  unfold hexDigitVal at h
  split at h
  · simp at h; omega
  · split at h
    · simp at h; omega
    · split at h
      · simp at h; omega
      · simp at h

theorem hexDecode_bytes_lt :
    ∀ s : List Char, ∀ bs : List Nat, hexDecode s = some bs → ∀ b ∈ bs, b < 256 := by
  intro s
  induction s using hexDecode.induct with
  | case1 => intro bs h b hb; simp [hexDecode] at h; subst h; simp at hb
  | case2 c => intro bs h; simp [hexDecode] at h
  | case3 c1 c2 rest v1 v2 hv2 hv1 ih =>
      intro bs h
      simp only [hexDecode, hv1, hv2] at h
      match hr : hexDecode rest with
      | some bs0 =>
          rw [hr] at h
          simp at h
          have hv1' : v1 < 16 := hexDigitVal_lt hv1
          have hv2' : v2 < 16 := hexDigitVal_lt hv2
          intro b hb
          rw [← h] at hb
          simp only [List.mem_cons] at hb
          rcases hb with hb | hb
          · omega
          · exact ih bs0 hr b hb
      | none => rw [hr] at h; simp at h
  | case4 c1 c2 rest hnone =>
      intro bs h
      simp only [hexDecode] at h
      rcases e1 : hexDigitVal c1 with _ | v1
      · rcases e2 : hexDigitVal c2 with _ | v2 <;> simp at h
      · rcases e2 : hexDigitVal c2 with _ | v2
        · simp at h
        · exact (hnone v1 v2 e1 e2).elim

theorem hexDigitChar_inv {c : Char} {v : Nat} (hl : isLowerHexDigit c = true)
    (h : hexDigitVal c = some v) : hexDigitChar v = c := by
  have hl' : (48 ≤ c.toNat ∧ c.toNat ≤ 57) ∨ (97 ≤ c.toNat ∧ c.toNat ≤ 102) := by
    unfold isLowerHexDigit at hl
    simpa using hl
  unfold hexDigitVal at h
  rcases hl' with hr | hr
  · rw [if_pos hr] at h
    simp only [Option.some_inj] at h
    subst h
    have hv : c.toNat - 48 < 10 := by omega
    have he : c.toNat - 48 + 48 = c.toNat := by omega
    simp only [hexDigitChar, if_pos hv, he, Char.ofNat_toNat]
  · have hne : ¬(48 ≤ c.toNat ∧ c.toNat ≤ 57) := by omega
    rw [if_neg hne, if_pos (by omega : 97 ≤ c.toNat ∧ c.toNat ≤ 102)] at h
    simp only [Option.some_inj] at h
    subst h
    have hv : ¬(c.toNat - 87 < 10) := by omega
    have he : c.toNat - 87 + 87 = c.toNat := by omega
    simp only [hexDigitChar, if_neg hv, he, Char.ofNat_toNat]

theorem isLowerHexDigit_val {c : Char} (h : isLowerHexDigit c = true) :
    ∃ v, hexDigitVal c = some v := by
  have hl' : (48 ≤ c.toNat ∧ c.toNat ≤ 57) ∨ (97 ≤ c.toNat ∧ c.toNat ≤ 102) := by
    unfold isLowerHexDigit at h
    simpa using h
  unfold hexDigitVal
  rcases hl' with hr | hr
  · exact ⟨c.toNat - 48, by rw [if_pos hr]⟩
  · have hne : ¬(48 ≤ c.toNat ∧ c.toNat ≤ 57) := by omega
    exact ⟨c.toNat - 87, by rw [if_neg hne, if_pos hr]⟩

theorem hexEncode_hexDecode :
    ∀ s : List Char, (∀ c ∈ s, isLowerHexDigit c = true) →
      ∀ bs, hexDecode s = some bs → hexEncode bs = s := by
  intro s
  induction s using hexDecode.induct with
  | case1 => intro _ bs h; simp [hexDecode] at h; subst h; simp [hexEncode]
  | case2 c => intro _ bs h; simp [hexDecode] at h
  | case3 c1 c2 rest v1 v2 hv2 hv1 ih =>
      intro hall bs h
      simp only [hexDecode, hv1, hv2] at h
      match hr : hexDecode rest with
      | some bs0 =>
          rw [hr] at h
          simp only [Option.map_some', Option.some_inj] at h
          subst h
          have hv1' : v1 < 16 := hexDigitVal_lt hv1
          have hv2' : v2 < 16 := hexDigitVal_lt hv2
          have hc1 := hexDigitChar_inv (hall c1 (by simp)) hv1
          have hc2 := hexDigitChar_inv (hall c2 (by simp)) hv2
          have hdiv : (v1 * 16 + v2) / 16 = v1 := by omega
          have hmod : (v1 * 16 + v2) % 16 = v2 := by omega
          have hrec := ih (fun c hc => hall c (by simp [hc])) bs0 hr
          simp [hexEncode, hdiv, hmod, hc1, hc2, hrec]
      | none => rw [hr] at h; simp at h
  | case4 c1 c2 rest hnone =>
      intro _ bs h
      simp only [hexDecode] at h
      rcases e1 : hexDigitVal c1 with _ | v1
      · rcases e2 : hexDigitVal c2 with _ | v2 <;> simp at h
      · rcases e2 : hexDigitVal c2 with _ | v2
        · simp at h
        · exact (hnone v1 v2 e1 e2).elim

/-- On lowercase-hex strings, `hexDecode` is injective. -/
theorem hexDecode_inj {s1 s2 : List Char}
    (l1 : ∀ c ∈ s1, isLowerHexDigit c = true) (l2 : ∀ c ∈ s2, isLowerHexDigit c = true)
    {b1 b2 : List Nat} (h1 : hexDecode s1 = some b1) (h2 : hexDecode s2 = some b2)
    (hb : b1 = b2) : s1 = s2 := by
  have e1 := hexEncode_hexDecode s1 l1 b1 h1
  have e2 := hexEncode_hexDecode s2 l2 b2 h2
  rw [← e1, ← e2, hb]

/-- Any even-length lowercase-hex string decodes. -/
theorem hexDecode_isSome :
    ∀ s : List Char, (∀ c ∈ s, isLowerHexDigit c = true) → s.length % 2 = 0 →
      (hexDecode s).isSome = true := by
  intro s
  induction s using hexDecode.induct with
  | case1 => intro _ _; simp [hexDecode]
  | case2 c => intro _ hlen; simp at hlen
  | case3 c1 c2 rest v1 v2 hv2 hv1 ih =>
      intro hall hlen
      simp only [hexDecode, hv1, hv2]
      have hr := ih (fun c hc => hall c (by simp [hc])) (by simp at hlen; omega)
      match hr2 : hexDecode rest with
      | some bs0 => simp
      | none => rw [hr2] at hr; simp at hr
  | case4 c1 c2 rest hnone =>
      intro hall _
      obtain ⟨v1, e1⟩ := isLowerHexDigit_val (hall c1 (by simp))
      obtain ⟨v2, e2⟩ := isLowerHexDigit_val (hall c2 (by simp))
      exact (hnone v1 v2 e1 e2).elim

theorem hexDecode_length :
    ∀ s : List Char, ∀ bs, hexDecode s = some bs → s.length = 2 * bs.length := by
  intro s
  induction s using hexDecode.induct with
  | case1 => intro bs h; simp [hexDecode] at h; subst h; simp
  | case2 c => intro bs h; simp [hexDecode] at h
  | case3 c1 c2 rest v1 v2 hv2 hv1 ih =>
      intro bs h
      simp only [hexDecode, hv1, hv2] at h
      match hr : hexDecode rest with
      | some bs0 =>
          rw [hr] at h
          simp only [Option.map_some', Option.some_inj] at h
          subst h
          have := ih bs0 hr
          simp
          omega
      | none => rw [hr] at h; simp at h
  | case4 c1 c2 rest hnone =>
      intro bs h
      simp only [hexDecode] at h
      rcases e1 : hexDigitVal c1 with _ | v1
      · rcases e2 : hexDigitVal c2 with _ | v2 <;> simp at h
      · rcases e2 : hexDigitVal c2 with _ | v2
        · simp at h
        · exact (hnone v1 v2 e1 e2).elim

/-! ## Python str.replace (single-character pattern) -/

/-- Python `str.replace` with a one-character pattern: every occurrence of the
character is replaced by `rep`. -/
def pyReplaceChar (c : Char) (rep : List Char) : List Char → List Char
  | [] => []
  | x :: xs => if x = c then rep ++ pyReplaceChar c rep xs else x :: pyReplaceChar c rep xs

theorem pyReplaceChar_empty_eq_filter (c : Char) :
    ∀ s : List Char, pyReplaceChar c [] s = s.filter (fun x => x ≠ c) := by
  intro s
  induction s with
  | nil => rfl
  | cons x xs ih =>
      by_cases hx : x = c
      · simp [pyReplaceChar, hx, ih, List.filter]
      · simp [pyReplaceChar, hx, ih, List.filter]

theorem pyReplaceChar_no_occurrence {c : Char} (rep : List Char) :
    ∀ s : List Char, (∀ x ∈ s, x ≠ c) → pyReplaceChar c rep s = s := by
  intro s
  induction s with
  | nil => intro _; rfl
  | cons x xs ih =>
      intro h
      have hx : x ≠ c := h x (by simp)
      simp only [pyReplaceChar, if_neg hx]
      rw [ih (fun y hy => h y (by simp [hy]))]

/-! ## Key-System Blob Builder (DownloadManager._generate_pssh) -/

/-- The sixteen system-id bytes: bytes.fromhex("edef8ba979d64acea3c827dcd51d21ed"). -/
def systemIdBytes : List Nat :=
  (hexDecode "edef8ba979d64acea3c827dcd51d21ed".toList).getD []

/-- The bytes of the literal bytearray(b'2pssh'). -/
def psshLead : List Nat := "2pssh".toList.map Char.toNat

/-- DownloadManager._generate_pssh: bytearray(b'2pssh'), extended with the
system-id bytes, an empty bytes literal, and bytes.fromhex(key_id), then
base64-encoded.  `none` models the ValueError that bytes.fromhex raises on a
malformed key id. -/
def generatePssh (keyId : List Char) : Option (List Char) :=
  (hexDecode keyId).map
    (fun kid => b64encodeBytes (psshLead ++ systemIdBytes ++ ([] : List Nat) ++ kid))

/-- KID normalization as performed by _get_encryption_info:
kid_match.group(1).replace('-', ''). -/
def normalizeKid (raw : List Char) : List Char := pyReplaceChar '-' [] raw

theorem psshLead_eq : psshLead = [50, 112, 115, 115, 104] := by decide

theorem systemIdBytes_eq :
    systemIdBytes =
      [237, 239, 139, 169, 121, 214, 74, 206, 163, 200, 39, 220, 213, 29, 33, 237] := by decide

theorem generatePssh_blob_bytes {k : List Char} {kid : List Nat}
    (hk : hexDecode k = some kid) :
    generatePssh k = some (b64encodeBytes (psshLead ++ systemIdBytes ++ ([] : List Nat) ++ kid)) ∧
      pyB64decode (b64encodeBytes (psshLead ++ systemIdBytes ++ ([] : List Nat) ++ kid)) =
        some (psshLead ++ systemIdBytes ++ ([] : List Nat) ++ kid) := by
  constructor
  · simp [generatePssh, hk]
  · refine pyB64decode_b64encodeBytes _ ?_
    intro b hb
    simp only [List.append_nil, List.mem_append] at hb
    rcases hb with (hb | hb) | hb
    · rw [psshLead_eq] at hb; simp at hb; omega
    · rw [systemIdBytes_eq] at hb; simp at hb; omega
    · exact hexDecode_bytes_lt k kid hk b hb

/-- C2, counterexample: for the concrete canonical KID
12345678123412341234123456789012 the built blob base64-decodes to 37 bytes,
not to the 48-byte layout the claim states (there is no length, version/flags
or data-size field in the bytes the code assembles). -/
theorem pssh_blob_is_37_bytes_not_48 :
    ∃ p bs, generatePssh "12345678123412341234123456789012".toList = some p ∧
      pyB64decode p = some bs ∧ bs.length = 37 ∧ bs.length ≠ 48 := by
  have hk : hexDecode "12345678123412341234123456789012".toList =
      some [18, 52, 86, 120, 18, 52, 18, 52, 18, 52, 18, 52, 86, 120, 144, 18] := by decide
  obtain ⟨h1, h2⟩ := generatePssh_blob_bytes hk
  exact ⟨_, _, h1, h2, by decide, by decide⟩

/-- C2, amended: over canonical (lowercase, 32-hex-character) KIDs the blob
builder is deterministic and injective, and the blob base64-decodes to exactly
37 bytes: the five bytes of b'2pssh', the sixteen system-id bytes at offset 5,
and the sixteen raw KID bytes at offset 21; no big-endian length, no
version/flags and no data-size field is present. -/
theorem pssh_deterministic_injective_layout (k1 k2 : List Char)
    (hk1 : ∀ c ∈ k1, isLowerHexDigit c = true) (hl1 : k1.length = 32)
    (hk2 : ∀ c ∈ k2, isLowerHexDigit c = true) (hl2 : k2.length = 32)
    (hne : k1 ≠ k2) :
    (∃ p1 bs1, generatePssh k1 = some p1 ∧ pyB64decode p1 = some bs1 ∧
       bs1.length = 37 ∧ bs1.take 5 = psshLead ∧ (bs1.drop 5).take 16 = systemIdBytes ∧
       hexDecode k1 = some (bs1.drop 21)) ∧
    generatePssh k1 ≠ generatePssh k2 := by
  have hs1 : (hexDecode k1).isSome = true := hexDecode_isSome k1 hk1 (by omega)
  have hs2 : (hexDecode k2).isSome = true := hexDecode_isSome k2 hk2 (by omega)
  obtain ⟨b1, hb1⟩ := Option.isSome_iff_exists.mp hs1
  obtain ⟨b2, hb2⟩ := Option.isSome_iff_exists.mp hs2
  have hlen1 : b1.length = 16 := by have := hexDecode_length k1 b1 hb1; omega
  have hlen2 : b2.length = 16 := by have := hexDecode_length k2 b2 hb2; omega
  obtain ⟨hp1, hd1⟩ := generatePssh_blob_bytes hb1
  obtain ⟨hp2, hd2⟩ := generatePssh_blob_bytes hb2
  constructor
  · refine ⟨_, _, hp1, hd1, ?_, ?_, ?_, ?_⟩
    · rw [psshLead_eq, systemIdBytes_eq]; simp [hlen1]
    · rw [psshLead_eq, systemIdBytes_eq]; rfl
    · rw [psshLead_eq, systemIdBytes_eq]; rfl
    · rw [hb1, psshLead_eq, systemIdBytes_eq]; rfl
  · intro hcontra
    rw [hp1, hp2] at hcontra
    simp only [Option.some_inj] at hcontra
    have hbytes1 : ∀ b ∈ psshLead ++ systemIdBytes ++ ([] : List Nat) ++ b1, b < 256 := by
      intro b hb
      simp only [List.append_nil, List.mem_append] at hb
      rcases hb with (hb | hb) | hb
      · rw [psshLead_eq] at hb; simp at hb; omega
      · rw [systemIdBytes_eq] at hb; simp at hb; omega
      · exact hexDecode_bytes_lt k1 b1 hb1 b hb
    have hbytes2 : ∀ b ∈ psshLead ++ systemIdBytes ++ ([] : List Nat) ++ b2, b < 256 := by
      intro b hb
      simp only [List.append_nil, List.mem_append] at hb
      rcases hb with (hb | hb) | hb
      · rw [psshLead_eq] at hb; simp at hb; omega
      · rw [systemIdBytes_eq] at hb; simp at hb; omega
      · exact hexDecode_bytes_lt k2 b2 hb2 b hb
    have heqb := b64encodeBytes_inj hbytes1 hbytes2 hcontra
    have heqb' : b1 = b2 := by
      rw [psshLead_eq, systemIdBytes_eq] at heqb
      simpa using heqb
    exact hne (hexDecode_inj hk1 hk2 hb1 hb2 heqb')

/-- Witness for the amended C2 theorem at two concrete canonical KIDs. -/
theorem pssh_layout_witness :
    ((∃ p1 bs1,
        generatePssh "aaaaaaaaaaaaaaaaaaaaaaaaaaaaaaaa".toList = some p1 ∧
        pyB64decode p1 = some bs1 ∧ bs1.length = 37 ∧ bs1.take 5 = psshLead ∧
        (bs1.drop 5).take 16 = systemIdBytes ∧
        hexDecode "aaaaaaaaaaaaaaaaaaaaaaaaaaaaaaaa".toList = some (bs1.drop 21)) ∧
      generatePssh "aaaaaaaaaaaaaaaaaaaaaaaaaaaaaaaa".toList ≠
        generatePssh "bbbbbbbbbbbbbbbbbbbbbbbbbbbbbbbb".toList) :=
  pssh_deterministic_injective_layout
    "aaaaaaaaaaaaaaaaaaaaaaaaaaaaaaaa".toList "bbbbbbbbbbbbbbbbbbbbbbbbbbbbbbbb".toList
    (by decide) (by decide) (by decide) (by decide) (by decide)

/-! ## JSON values (results of Python json.loads) -/

/-- A JSON value as json.loads produces it: null, booleans, integers (floats
are out of scope for this code base), strings, arrays, and objects with
fields in document order. -/
inductive JVal where
  | jnull : JVal
  | jbool : Bool → JVal
  | jnum : Int → JVal
  | jstr : List Char → JVal
  | jarr : List JVal → JVal
  | jobj : List (List Char × JVal) → JVal

/-- Whether `pat` is an initial segment of `s`. -/
def listStarts (pat : List Char) (s : List Char) : Bool :=
  match pat, s with
  | [], _ => true
  | _ :: _, [] => false
  | a :: as, b :: bs => a = b && listStarts as bs

/-- Whether `pat` occurs contiguously inside `s` (Python `sub in str`). -/
def listOccurs (pat : List Char) (s : List Char) : Bool :=
  match s with
  | [] => pat.isEmpty
  | _ :: rest => listStarts pat s || listOccurs pat rest

/-- JSON whitespace skipping. -/
def skipWs (s : List Char) : List Char :=
  match s with
  | c :: rest => if c = ' ' ∨ c = '\t' ∨ c = '\n' ∨ c = '\r' then skipWs rest else c :: rest
  | [] => []

/-- Parse the body of a JSON string after its opening quote, handling the
single-character escapes (\\uXXXX escapes are not modelled; none occur in
this code base's data). -/
def parseStringBody : Nat → List Char → Option (List Char × List Char)
  | 0, _ => none
  | _ + 1, [] => none
  | fuel + 1, c :: rest =>
      if c = '"' then some ([], rest)
      else if c = '\\' then
        match rest with
        | e :: rest2 =>
            let esc : Option Char :=
              if e = '"' then some '"'
              else if e = '\\' then some '\\'
              else if e = '/' then some '/'
              else if e = 'n' then some '\n'
              else if e = 't' then some '\t'
              else if e = 'r' then some '\r'
              else if e = 'b' then some (Char.ofNat 8)
              else if e = 'f' then some (Char.ofNat 12)
              else none
            match esc with
            | some ec => (parseStringBody fuel rest2).map (fun p => (ec :: p.1, p.2))
            | none => none
        | [] => none
      else (parseStringBody fuel rest).map (fun p => (c :: p.1, p.2))

/-- An ASCII digit. -/
def isDigitChar (c : Char) : Bool := decide (48 ≤ c.toNat ∧ c.toNat ≤ 57)

/-- Numeric value of a digit run. -/
def digitsVal (s : List Char) : Nat :=
  s.foldl (fun acc c => acc * 10 + (c.toNat - 48)) 0

/-- Parse a JSON integer (an optional minus sign and a digit run); a fraction
or exponent would make a Python float, which this code base never receives,
and is rejected here. -/
def parseNum (s : List Char) : Option (JVal × List Char) :=
  match s with
  | '-' :: rest =>
      let digits := rest.takeWhile isDigitChar
      let after := rest.drop digits.length
      if digits.isEmpty then none
      else
        match after with
        | '.' :: _ => none
        | 'e' :: _ => none
        | 'E' :: _ => none
        | _ => some (JVal.jnum (-(digitsVal digits : Int)), after)
  | _ =>
      let digits := s.takeWhile isDigitChar
      let after := s.drop digits.length
      if digits.isEmpty then none
      else
        match after with
        | '.' :: _ => none
        | 'e' :: _ => none
        | 'E' :: _ => none
        | _ => some (JVal.jnum (digitsVal digits : Int), after)

mutual

/-- Parse one JSON value (fuel bounds the nesting depth). -/
def parseVal : Nat → List Char → Option (JVal × List Char)
  | 0, _ => none
  | fuel + 1, s =>
      match skipWs s with
      | [] => none
      | c :: rest =>
          if c = '"' then
            (parseStringBody (rest.length + 1) rest).map (fun p => (JVal.jstr p.1, p.2))
          else if c = '\x7b' then
            match skipWs rest with
            | d :: rest2 =>
                if d = '\x7d' then some (JVal.jobj [], rest2)
                else parseMembers fuel (d :: rest2)
            | [] => none
          else if c = '[' then
            match skipWs rest with
            | d :: rest2 =>
                if d = ']' then some (JVal.jarr [], rest2)
                else (parseItems fuel (d :: rest2)).map (fun p => (JVal.jarr p.1, p.2))
            | [] => none
          else if c = 't' then
            if listStarts "rue".toList rest then some (JVal.jbool true, rest.drop 3) else none
          else if c = 'f' then
            if listStarts "alse".toList rest then some (JVal.jbool false, rest.drop 4) else none
          else if c = 'n' then
            if listStarts "ull".toList rest then some (JVal.jnull, rest.drop 3) else none
          else parseNum (c :: rest)

/-- Parse the members of a JSON object after its opening brace (at least one
member, then the closing brace). -/
def parseMembers : Nat → List Char → Option (JVal × List Char)
  | 0, _ => none
  | fuel + 1, s =>
      match skipWs s with
      | c :: rest =>
          if c = '"' then
            match parseStringBody (rest.length + 1) rest with
            | some (key, r1) =>
                match skipWs r1 with
                | d :: r2 =>
                    if d = ':' then
                      match parseVal fuel r2 with
                      | some (v, r3) =>
                          match skipWs r3 with
                          | e :: r4 =>
                              if e = ',' then
                                match parseMembers fuel r4 with
                                | some (JVal.jobj fields, r5) =>
                                    some (JVal.jobj ((key, v) :: fields), r5)
                                | _ => none
                              else if e = '\x7d' then some (JVal.jobj [(key, v)], r4)
                              else none
                          | [] => none
                      | none => none
                    else none
                | [] => none
            | none => none
          else none
      | [] => none

/-- Parse the items of a JSON array after its opening bracket (at least one
item, then the closing bracket). -/
def parseItems : Nat → List Char → Option (List JVal × List Char)
  | 0, _ => none
  | fuel + 1, s =>
      match parseVal fuel s with
      | some (v, r1) =>
          match skipWs r1 with
          | e :: r2 =>
              if e = ',' then (parseItems fuel r2).map (fun p => (v :: p.1, p.2))
              else if e = ']' then some ([v], r2)
              else none
          | [] => none
      | none => none

end

/-- Python json.loads on a string: parse one document and require only
whitespace after it; `none` models the ValueError. -/
def jsonLoads (s : List Char) : Option JVal :=
  match parseVal (s.length + 1) s with
  | some (v, rest) => if (skipWs rest).isEmpty then some v else none
  | none => none

/-- Bytes of an ASCII string (Python str.encode). -/
def bytesOfChars (s : List Char) : List Nat := s.map Char.toNat

/-- Characters of a byte list (Python bytes.decode; faithful for the ASCII
payloads this code base handles). -/
def charsOfBytes (bs : List Nat) : List Char := bs.map Char.ofNat

/-- Escape a character for json.dumps output. -/
def jsonEscapeChar (c : Char) : List Char :=
  if c = '"' then ['\\', '"']
  else if c = '\\' then ['\\', '\\']
  else if c = '\n' then ['\\', 'n']
  else if c = '\t' then ['\\', 't']
  else if c = '\r' then ['\\', 'r']
  else [c]

/-- Render a JSON string literal. -/
def jsonDumpStr (s : List Char) : List Char :=
  '"' :: (s.flatMap jsonEscapeChar) ++ ['"']

/-- Digits of an integer. -/
def intDigits (n : Int) : List Char :=
  if n < 0 then '-' :: Nat.toDigits 10 n.natAbs else Nat.toDigits 10 n.natAbs

mutual

/-- Python json.dumps with its default separators (a comma-space between
elements, a colon-space after keys). -/
def jsonDumps : JVal → List Char
  | JVal.jnull => "null".toList
  | JVal.jbool true => "true".toList
  | JVal.jbool false => "false".toList
  | JVal.jnum n => intDigits n
  | JVal.jstr s => jsonDumpStr s
  | JVal.jarr xs => '[' :: jsonDumpsItems xs ++ [']']
  | JVal.jobj fields => '\x7b' :: jsonDumpsFields fields ++ ['\x7d']

/-- Comma-space separated array items. -/
def jsonDumpsItems : List JVal → List Char
  | [] => []
  | [v] => jsonDumps v
  | v :: rest => jsonDumps v ++ [Char.ofNat 44, Char.ofNat 32] ++ jsonDumpsItems rest

/-- Comma-space separated object members. -/
def jsonDumpsFields : List (List Char × JVal) → List Char
  | [] => []
  | [(k, v)] => jsonDumpStr k ++ ':' :: ' ' :: jsonDumps v
  | (k, v) :: rest => jsonDumpStr k ++ ':' :: ' ' :: jsonDumps v ++ [Char.ofNat 44, Char.ofNat 32] ++ jsonDumpsFields rest

end

/-- Last-binding lookup in a decoded JSON object (later duplicate keys win,
as in a Python dict built by json.loads). -/
def jLookup (fields : List (List Char × JVal)) (k : List Char) : Option JVal :=
  match fields with
  | [] => none
  | (k0, v0) :: rest =>
      match jLookup rest k with
      | some v => some v
      | none => if k0 = k then some v0 else none

/-- Python `x in v` for a string x and a json.loads result v: key membership
for a dict, element equality for a list, substring test for a str; `none`
models the TypeError raised for int, bool and None. -/
def pyMem (x : List Char) : JVal → Option Bool
  | JVal.jobj fields => some (fields.any (fun f => f.1 = x))
  | JVal.jarr xs =>
      some (xs.any (fun v => match v with | JVal.jstr s => s = x | _ => false))
  | JVal.jstr s => some (listOccurs x s)
  | _ => none

/-- Python truthiness of a json.loads result. -/
def pyTruthy : JVal → Bool
  | JVal.jnull => false
  | JVal.jbool b => b
  | JVal.jnum n => n ≠ 0
  | JVal.jstr s => ¬ s.isEmpty
  | JVal.jarr xs => ¬ xs.isEmpty
  | JVal.jobj fields => ¬ fields.isEmpty

/-- Python `v[k]` for a string key: only a dict supports it; `none` models
the TypeError (or KeyError on a missing key). -/
def jSubscript (v : JVal) (k : List Char) : Option JVal :=
  match v with
  | JVal.jobj fields => jLookup fields k
  | _ => none

/-- Python str() of a json.loads result, as an f-string interpolates it
(faithful for the strings and numbers this code base handles; containers are
rendered in JSON form, which only differs from Python repr in quote style). -/
def pyStr : JVal → List Char
  | JVal.jstr s => s
  | JVal.jnum n => intDigits n
  | JVal.jbool true => "True".toList
  | JVal.jbool false => "False".toList
  | JVal.jnull => "None".toList
  | v => jsonDumps v

/-- Python iteration over a json.loads result (`for x in v`): list elements,
dict keys, characters of a str; `none` models the TypeError otherwise. -/
def jIter : JVal → Option (List JVal)
  | JVal.jarr xs => some xs
  | JVal.jobj fields => some (fields.map (fun f => JVal.jstr f.1))
  | JVal.jstr s => some (s.map (fun c => JVal.jstr [c]))
  | _ => none

/-! ## Header Synthesizer (AuthManager._validate_token) -/

/-- The header pair _validate_token returns on success. -/
structure AuthHeaders where
  authorization : List Char
  dtCustomData : List Char

/-- Whitespace for Python str.strip(). -/
def isPySpace (c : Char) : Bool :=
  c = ' ' || c = '\t' || c = '\n' || c = '\r' || c = Char.ofNat 11 || c = Char.ofNat 12

/-- Python str.strip(). -/
def pyStrip (s : List Char) : List Char :=
  ((s.dropWhile isPySpace).reverse.dropWhile isPySpace).reverse

/-- Python str.lower() on the ASCII range (enough for the bearer test). -/
def pyLower (s : List Char) : List Char := s.map Char.toLower

/-- The base64-then-JSON decode of the session context that _validate_token
attempts first. -/
def decodeCtxB64 (d : List Char) : Option JVal :=
  (pyB64decode d).bind (fun bs => jsonLoads (charsOfBytes bs))

/-- The required-fields test of _validate_token, under Python membership;
`none` models a TypeError escaping to the outer catch-all. -/
def checkRequiredFields (cd : JVal) : Option Bool :=
  match pyMem "userId".toList cd, pyMem "sessionId".toList cd, pyMem "merchant".toList cd with
  | some b1, some b2, some b3 => some (b1 && b2 && b3)
  | _, _, _ => none

/-- Field check and header formatting of _validate_token, given the cleaned
token, the (possibly re-encoded) session context and the decoded value. -/
def validateFields (token dt : List Char) (cd : JVal) : Bool × Option AuthHeaders :=
  match checkRequiredFields cd with
  | some true => (true, some ⟨"Bearer ".toList ++ token, dt⟩)
  | some false => (false, none)
  | none => (false, none)

/-- AuthManager._validate_token: reject empty inputs, clean the bearer token,
decode the session context as base64-then-JSON or else as plain JSON (then
re-encode it), and require userId, sessionId and merchant; every failure is
caught and mapped to (False, None). -/
def validateToken (authToken dtCustomData : List Char) : Bool × Option AuthHeaders :=
  if authToken.isEmpty || dtCustomData.isEmpty then (false, none)
  else
    let t1 := pyStrip authToken
    let t2 :=
      if listStarts "bearer ".toList (pyLower t1) then t1.drop 7
      else if listStarts "bearer".toList (pyLower t1) then t1.drop 6
      else t1
    match decodeCtxB64 dtCustomData with
    | some cd => validateFields t2 dtCustomData cd
    | none =>
        match jsonLoads dtCustomData with
        | some cd => validateFields t2 (b64encodeBytes (bytesOfChars (jsonDumps cd))) cd
        | none => (false, none)

/-- Session-context decoding in the words of the specification: base64 then
JSON first, plain JSON as the fallback. -/
def sessionDecodeSpec (d : List Char) : Option JVal :=
  match decodeCtxB64 d with
  | some v => some v
  | none => jsonLoads d

theorem charsOfBytes_bytesOfChars (s : List Char) : charsOfBytes (bytesOfChars s) = s := by
  simp [charsOfBytes, bytesOfChars, List.map_map, Function.comp_def, Char.ofNat_toNat]

theorem decodeCtxB64_encode (s : List Char) (h : ∀ c ∈ s, c.toNat < 256) :
    decodeCtxB64 (b64encodeBytes (bytesOfChars s)) = jsonLoads s := by
  unfold decodeCtxB64
  rw [pyB64decode_b64encodeBytes (bytesOfChars s) ?_]
  · simp [charsOfBytes_bytesOfChars]
  · intro b hb
    simp only [bytesOfChars, List.mem_map] at hb
    obtain ⟨c, hc, rfl⟩ := hb
    exact h c hc

theorem jsonLoads_nil : jsonLoads [] = none := rfl

theorem validateFields_fst (token dt : List Char) (cd : JVal) :
    (validateFields token dt cd).1 = true ↔ checkRequiredFields cd = some true := by
  unfold validateFields
  rcases h : checkRequiredFields cd with _ | b
  · simp
  · cases b <;> simp

theorem validateFields_shape (token dt : List Char) (cd : JVal) :
    validateFields token dt cd = (false, none) ∨
      validateFields token dt cd = (true, some ⟨"Bearer ".toList ++ token, dt⟩) := by
  unfold validateFields
  rcases h : checkRequiredFields cd with _ | b
  · exact Or.inl rfl
  · cases b
    · exact Or.inl rfl
    · exact Or.inr rfl

theorem validateFields_snd (token dt : List Char) (cd : JVal)
    (h : checkRequiredFields cd = some true) :
    (validateFields token dt cd).2 = some ⟨"Bearer ".toList ++ token, dt⟩ := by
  unfold validateFields
  rw [h]

/-- C6, amended: _validate_token accepts exactly the credential sets whose
bearer token and session context are both non-empty strings and whose session
context decodes (base64-then-JSON first, else plain JSON) to a value that
contains userId, sessionId and merchant under Python membership; in the
plain-JSON case the headers carry the re-encoded base64 session context. -/
theorem validate_accepts_iff (t d : List Char) :
    ((validateToken t d).1 = true ↔
      t ≠ [] ∧ d ≠ [] ∧
        ∃ v, sessionDecodeSpec d = some v ∧ checkRequiredFields v = some true) ∧
    (∀ v, decodeCtxB64 d = none → jsonLoads d = some v →
      checkRequiredFields v = some true → t ≠ [] →
      ∃ h, (validateToken t d).2 = some h ∧
        h.dtCustomData = b64encodeBytes (bytesOfChars (jsonDumps v))) := by
  constructor
  · unfold validateToken sessionDecodeSpec
    by_cases ht : t.isEmpty
    · have ht' : t = [] := List.isEmpty_iff.mp ht
      simp [ht, ht']
    · by_cases hd : d.isEmpty
      · have hd' : d = [] := List.isEmpty_iff.mp hd
        simp [ht, hd, hd']
      · have ht' : t ≠ [] := fun h => ht (by simp [h])
        have hd' : d ≠ [] := fun h => hd (by simp [h])
        have hte : t.isEmpty = false := by rcases t with _ | _; exact absurd rfl ht'; rfl
        have hde : d.isEmpty = false := by rcases d with _ | _; exact absurd rfl hd'; rfl
        rw [if_neg (by simp [hte, hde])]
        rcases hdec : decodeCtxB64 d with _ | cd
        · rcases hjs : jsonLoads d with _ | cd
          · simp [ht', hd']
          · rw [validateFields_fst]
            simp [ht', hd']
        · rw [validateFields_fst]
          simp [ht', hd']
  · intro v hdec hjs hcheck ht
    have hd' : d ≠ [] := by
      intro h
      rw [h, jsonLoads_nil] at hjs
      exact Option.noConfusion hjs
    unfold validateToken
    have hte : t.isEmpty = false := by
      cases t
      · exact absurd rfl ht
      · rfl
    have hde : d.isEmpty = false := by
      cases d
      · exact absurd rfl hd'
      · rfl
    rw [if_neg (by simp [hte, hde])]
    rcases hdec2 : decodeCtxB64 d with _ | cd
    · rw [hjs]
      refine ⟨_, validateFields_snd _ _ _ hcheck, rfl⟩
    · rw [hdec2] at hdec
      exact Option.noConfusion hdec

/-- C6, counterexample: with an empty bearer token and a session context that
decodes (base64 then JSON) to an object holding userId, sessionId and
merchant, _validate_token still returns (False, None): acceptance is not
determined by the session context alone, against the claim's "exactly when". -/
theorem validate_rejects_empty_token_despite_valid_context :
    (∃ v, sessionDecodeSpec (b64encodeBytes (bytesOfChars
        "\x7b\"userId\": \"u1\", \"sessionId\": \"s1\", \"merchant\": \"m1\"\x7d".toList)) =
          some v ∧
      checkRequiredFields v = some true) ∧
    validateToken [] (b64encodeBytes (bytesOfChars
        "\x7b\"userId\": \"u1\", \"sessionId\": \"s1\", \"merchant\": \"m1\"\x7d".toList)) =
      (false, none) := by
  constructor
  · refine ⟨JVal.jobj [("userId".toList, JVal.jstr "u1".toList),
      ("sessionId".toList, JVal.jstr "s1".toList),
      ("merchant".toList, JVal.jstr "m1".toList)], ?_, by decide⟩
    unfold sessionDecodeSpec
    rw [decodeCtxB64_encode _ (by decide)]
    rfl
  · rfl

/-- Witness for the amended C6 theorem: a non-empty token and a plain-JSON
session context carrying all three fields are accepted, and the headers carry
the re-encoded base64 session context. -/
theorem validate_accepts_witness :
    ∃ h, (validateToken "tok".toList
        "\x7b\"userId\": \"u1\", \"sessionId\": \"s1\", \"merchant\": \"m1\"\x7d".toList).2 =
          some h ∧
      h.dtCustomData = b64encodeBytes (bytesOfChars (jsonDumps (JVal.jobj
        [("userId".toList, JVal.jstr "u1".toList),
         ("sessionId".toList, JVal.jstr "s1".toList),
         ("merchant".toList, JVal.jstr "m1".toList)]))) :=
  (validate_accepts_iff "tok".toList
      "\x7b\"userId\": \"u1\", \"sessionId\": \"s1\", \"merchant\": \"m1\"\x7d".toList).2
    _ rfl rfl (by decide) (by decide)

/-- C10: credential validation is total and two-valued over the embedding: for
every pair of input strings, _validate_token returns (True, headers) or
exactly (False, None); every modelled decode or parse failure (base64, JSON,
or a TypeError from the membership test) lands in the rejection value, so
callers never see an exception from validation. -/
theorem validate_never_raises (t d : List Char) :
    validateToken t d = (false, none) ∨ ∃ h, validateToken t d = (true, some h) := by
  unfold validateToken
  by_cases hc : (t.isEmpty || d.isEmpty) = true
  · rw [if_pos hc]
    exact Or.inl rfl
  · rw [if_neg hc]
    rcases hdec : decodeCtxB64 d with _ | cd
    · rcases hjs : jsonLoads d with _ | cd
      · exact Or.inl rfl
      · rcases validateFields_shape
            (if listStarts "bearer ".toList (pyLower (pyStrip t)) = true then (pyStrip t).drop 7
             else if listStarts "bearer".toList (pyLower (pyStrip t)) = true then (pyStrip t).drop 6
             else pyStrip t)
            (b64encodeBytes (bytesOfChars (jsonDumps cd))) cd with h | h
        · exact Or.inl h
        · exact Or.inr ⟨_, h⟩
    · rcases validateFields_shape
          (if listStarts "bearer ".toList (pyLower (pyStrip t)) = true then (pyStrip t).drop 7
           else if listStarts "bearer".toList (pyLower (pyStrip t)) = true then (pyStrip t).drop 6
           else pyStrip t)
          d cd with h | h
      · exact Or.inl h
      · exact Or.inr ⟨_, h⟩

/-! ## Key Exchange Client (DownloadManager._fetch_decryption_key) -/

/-- Outcome of the single HTTP POST the key-exchange client issues. -/
inductive PostOutcome where
  | timeout : PostOutcome
  | response : Nat → List Char → PostOutcome

/-- The request _fetch_decryption_key sends: the CDM endpoint, the
license-proxy URL, the formatted headers, the base64 blob, and the request's
explicit timeout. -/
structure CdmRequest where
  url : List Char
  license : List Char
  headersDt : List Char
  headersAuth : Option (List Char)
  pssh : List Char
  timeoutSeconds : Option Nat

/-- The formatted_headers block of _fetch_decryption_key: decode
dt_custom_data (base64 then JSON) and build an authorization value from its
sessionId; any failure falls back to sending dt-custom-data alone (`none`). -/
def formatCdmAuth (dt : List Char) : Option (List Char) :=
  match decodeCtxB64 dt with
  | some (JVal.jobj fields) =>
      some ("Bearer ".toList ++ pyStr ((jLookup fields "sessionId".toList).getD (JVal.jstr [])))
  | _ => none

/-- The request value _fetch_decryption_key posts, timeout=30 included. -/
def fetchCdmRequest (pssh dt : List Char) : CdmRequest :=
  { url := "https://cdrm-project.com/api/cdm/L3".toList
    license := "https://lic.drmtoday.com/license-proxy-widevine/cenc/?specConform=true".toList
    headersDt := dt
    headersAuth := formatCdmAuth dt
    pssh := pssh
    timeoutSeconds := some 30 }

/-- The key-collection loop of _fetch_decryption_key: keep the entries with
both kid and key (Python membership), rendering both values; `none` models a
TypeError from a non-dict entry whose membership test passed. -/
def collectKeyPairs : List JVal → Option (List (List Char × List Char))
  | [] => some []
  | e :: rest =>
      match pyMem "kid".toList e, pyMem "key".toList e with
      | some hkid, some hkey =>
          if hkid && hkey then
            match jSubscript e "kid".toList, jSubscript e "key".toList with
            | some kv, some vv =>
                (collectKeyPairs rest).map (fun ks => (pyStr kv, pyStr vv) :: ks)
            | _, _ => none
          else collectKeyPairs rest
      | _, _ => none

/-- The formatting applied to the selected key string:
f"key_id=" plus keys[0] with its colon expanded to ":key=". -/
def formatKeyString (k : List Char) : List Char :=
  "key_id=".toList ++ pyReplaceChar ':' ":key=".toList k

/-- Selection and formatting of the collected pairs (lines 291-299 of
mubi_downloader.py): build the kid:key strings in response order; raise
ValueError("No valid key pairs found in response") when there are none; else
format the first. -/
def selectAndFormat (pairs : List (List Char × List Char)) : Except (List Char) (List Char) :=
  match pairs.map (fun p => p.1 ++ ':' :: p.2) with
  | [] => Except.error "No valid key pairs found in response".toList
  | k0 :: _ => Except.ok (formatKeyString k0)

/-- The try block of _fetch_decryption_key over the POST outcome: the status
check (whose detailed ValueError message carries the status and the raw
body), response.json(), the keys check, pair collection, and selection. -/
def fetchTryBody (outcome : PostOutcome) : Except (List Char) (List Char) :=
  match outcome with
  | PostOutcome.timeout => Except.error "Read timed out.".toList
  | PostOutcome.response status body =>
      if status ≠ 200 then
        Except.error
          ("CDM Project API returned ".toList ++ intDigits status ++ ": ".toList ++ body)
      else
        match jsonLoads body with
        | none => Except.error "Expecting value".toList
        | some rd =>
            match pyMem "keys".toList rd with
            | none => Except.error "TypeError".toList
            | some false => Except.error "No decryption keys found in response".toList
            | some true =>
                match jSubscript rd "keys".toList with
                | none => Except.error "TypeError".toList
                | some keysVal =>
                    match jIter keysVal with
                    | none => Except.error "TypeError".toList
                    | some entries =>
                        match collectKeyPairs entries with
                        | none => Except.error "TypeError".toList
                        | some pairs => selectAndFormat pairs

/-- The message of the ValueError the except block of _fetch_decryption_key
re-raises for every failure. -/
def genericKeyError : List Char := "Failed to obtain decryption key".toList

/-- DownloadManager._fetch_decryption_key: build the request (with its
explicit 30-second timeout), run the try block on the network outcome, and
collapse every failure into ValueError("Failed to obtain decryption key").
The regex fallback after the try/except in the source never runs: the try
block ends in return and the except block in raise. -/
def fetchDecryptionKey (pssh dt : List Char) (net : CdmRequest → PostOutcome) :
    Except (List Char) (List Char) :=
  match fetchTryBody (net (fetchCdmRequest pssh dt)) with
  | Except.ok k => Except.ok k
  | Except.error _ => Except.error genericKeyError

/-- A hex16+:hex16+ match anchored at the start of `s` (with the greedy runs
of the regex at lines 306-310). -/
def keyPairAt (s : List Char) : Option (List Char) :=
  let r1 := s.takeWhile isLowerHexDigit
  let rest := s.drop r1.length
  if r1.length < 16 then none
  else
    match rest with
    | ':' :: rest2 =>
        let r2 := rest2.takeWhile isLowerHexDigit
        if r2.length < 16 then none else some (r1 ++ ':' :: r2)
    | _ => none

/-- Leftmost hex16+:hex16+ match (re.search of lines 306-310). -/
def findKeyPair : List Char → Option (List Char)
  | [] => none
  | c :: rest =>
      match keyPairAt (c :: rest) with
      | some m => some m
      | none => findKeyPair rest

/-- The pattern-extraction fallback written after the try/except of
_fetch_decryption_key (lines 306-310).  It is dead code in the source. -/
def fallbackKeySearch (body : List Char) : Option (List Char) :=
  (findKeyPair body).map formatKeyString

theorem pyReplaceChar_append (c : Char) (rep : List Char) (l1 l2 : List Char) :
    pyReplaceChar c rep (l1 ++ l2) = pyReplaceChar c rep l1 ++ pyReplaceChar c rep l2 := by
  induction l1 with
  | nil => rfl
  | cons x xs ih => by_cases hx : x = c <;> simp [pyReplaceChar, hx, ih]

/-- C1: given the free-text key-exchange body
abcd1234abcd1234:efef5678efef5678 with status 200, _fetch_decryption_key does
not fall back to pattern extraction: the structured-parse failure is caught
and re-raised as the generic ValueError, while the pattern fallback written
after the try/except (which would produce exactly the expected formatted
pair, second conjunct) is unreachable dead code. -/
theorem fetch_no_fallback_on_free_text :
    fetchDecryptionKey "pssh0".toList "dt0".toList
        (fun _ => PostOutcome.response 200 "abcd1234abcd1234:efef5678efef5678".toList) =
      Except.error genericKeyError ∧
    fallbackKeySearch "abcd1234abcd1234:efef5678efef5678".toList =
      some "key_id=abcd1234abcd1234:key=efef5678efef5678".toList := by
  exact ⟨rfl, rfl⟩

/-- C4, counterexample: for a key-exchange response with status 500 and body
"oops", the error surfaced by _fetch_decryption_key is the generic message,
which contains neither the status nor the body; the detailed message exists
only inside the try block, where it is swallowed by the except block. -/
theorem fetch_error_drops_status_and_body :
    fetchDecryptionKey "p".toList "d".toList
        (fun _ => PostOutcome.response 500 "oops".toList) =
      Except.error genericKeyError ∧
    fetchTryBody (PostOutcome.response 500 "oops".toList) =
      Except.error "CDM Project API returned 500: oops".toList ∧
    listOccurs "500".toList genericKeyError = false ∧
    listOccurs "oops".toList genericKeyError = false := by
  exact ⟨rfl, rfl, by decide, by decide⟩

/-- C4, amended: every failing key-exchange call (timeout, non-200 status,
unparsable body, or no key pairs) surfaces the same generic
ValueError("Failed to obtain decryption key"); the upstream status and body
appear only in the internally raised message and the log, never in the error
the caller receives. -/
theorem fetch_failures_surface_generic_error (pssh dt : List Char)
    (net : CdmRequest → PostOutcome) :
    (∃ k, fetchDecryptionKey pssh dt net = Except.ok k) ∨
      fetchDecryptionKey pssh dt net = Except.error genericKeyError := by
  unfold fetchDecryptionKey
  cases h : fetchTryBody (net (fetchCdmRequest pssh dt)) with
  | error e => exact Or.inr rfl
  | ok k => exact Or.inl ⟨k, rfl⟩

/-- C5, counterexample: a timeout of the key-exchange call surfaces exactly
the same error value as an unrelated HTTP failure, so no distinct timeout
error kind exists. -/
theorem fetch_timeout_not_distinct :
    fetchDecryptionKey "p".toList "d".toList (fun _ => PostOutcome.timeout) =
      fetchDecryptionKey "p".toList "d".toList
        (fun _ => PostOutcome.response 500 "oops".toList) ∧
    fetchDecryptionKey "p".toList "d".toList (fun _ => PostOutcome.timeout) =
      Except.error genericKeyError := ⟨rfl, rfl⟩

/-- C5, amended: the key-exchange POST always carries an explicit 30-second
timeout, and on a timeout the call fails (with the generic ValueError shared
by all key-exchange failures) rather than hanging; no distinct timeout error
kind is surfaced. -/
theorem fetch_timeout_bound_30 (pssh dt : List Char) :
    (fetchCdmRequest pssh dt).timeoutSeconds = some 30 ∧
    fetchDecryptionKey pssh dt (fun _ => PostOutcome.timeout) =
      Except.error genericKeyError := ⟨rfl, rfl⟩

/-- C7: selection is deterministic, always taking the first pair in response
order, and for colon-free (hex) kid and key the formatted result is exactly
key_id=<kid>:key=<key>; the empty pair list fails with the no-key-pairs
ValueError. -/
theorem select_first_pair_format (pairs : List (List Char × List Char))
    (kid key : List Char) (hhead : pairs.head? = some (kid, key))
    (hkid : ∀ c ∈ kid, c ≠ ':') (hkey : ∀ c ∈ key, c ≠ ':') :
    selectAndFormat pairs =
      Except.ok ("key_id=".toList ++ kid ++ ":key=".toList ++ key) ∧
    selectAndFormat [] =
      Except.error "No valid key pairs found in response".toList := by
  constructor
  · cases pairs with
    | nil => simp at hhead
    | cons p0 rest =>
        simp only [List.head?_cons, Option.some_inj] at hhead
        subst hhead
        unfold selectAndFormat
        simp only [List.map_cons]
        unfold formatKeyString
        rw [show kid ++ ':' :: key = kid ++ ([':'] ++ key) from by simp,
          pyReplaceChar_append, pyReplaceChar_append,
          pyReplaceChar_no_occurrence _ kid hkid,
          pyReplaceChar_no_occurrence _ key hkey]
        simp [pyReplaceChar]
  · rfl

/-- Witness for the C7 theorem at the singleton pair of the claim. -/
theorem select_first_pair_format_witness :
    selectAndFormat [("abcd1234abcd1234".toList, "efef5678efef5678".toList)] =
      Except.ok "key_id=abcd1234abcd1234:key=efef5678efef5678".toList ∧
    selectAndFormat [] =
      Except.error "No valid key pairs found in response".toList := by
  have h := select_first_pair_format
    [("abcd1234abcd1234".toList, "efef5678efef5678".toList)]
    "abcd1234abcd1234".toList "efef5678efef5678".toList rfl (by decide) (by decide)
  exact ⟨h.1.trans (by rfl), h.2⟩

/-! ## License Endpoint Resolver (DownloadManager._get_encryption_info) -/

/-- Python str.split with a one-character separator. -/
def pySplitChar (sep : Char) : List Char → List (List Char)
  | [] => [[]]
  | c :: rest =>
      match pySplitChar sep rest with
      | [] => [[]]
      | cur :: parts => if c = sep then [] :: cur :: parts else (c :: cur) :: parts

/-- The capture of re.search applied at one position for the pattern that
matches default_KID="..." with a non-empty capture before the closing
quote. -/
def kidCaptureAt (s : List Char) : Option (List Char) :=
  if listStarts "default_KID=\"".toList s then
    let after := s.drop 13
    let captured := after.takeWhile (fun c => c ≠ '"')
    if captured.isEmpty then none
    else if captured.length = after.length then none
    else some captured
  else none

/-- Leftmost default_KID="..." capture in the manifest text. -/
def findDefaultKid : List Char → Option (List Char)
  | [] => none
  | c :: rest =>
      match kidCaptureAt (c :: rest) with
      | some m => some m
      | none => findDefaultKid rest

/-- The network environment of _get_encryption_info: the film-availability
check response body, the secure-url response, the manifest text, and the
key-exchange network. -/
structure HttpEnv where
  checkBody : List Char
  secureStatus : Nat
  secureBody : List Char
  manifestBody : List Char
  cdmNet : CdmRequest → PostOutcome

/-- The network requests _get_encryption_info can issue, in order. -/
inductive ReqTag where
  | filmCheck : ReqTag
  | secureUrl : ReqTag
  | manifest : ReqTag
  | keyExchange : ReqTag
deriving DecidableEq

/-- The part of _get_encryption_info after the region check: the secure-url
call (its body parsed before the status checks, as in the source), the
manifest fetch, KID extraction and hyphen-stripping, blob construction, the
dt-custom-data re-check, and the key exchange. -/
def getEncryptionInfoAfterCheck (dt : List Char) (env : HttpEnv) :
    Except (List Char) (List Char × List Char) × List ReqTag :=
  let t2 := [ReqTag.filmCheck, ReqTag.secureUrl]
  match jsonLoads env.secureBody with
  | none => (Except.error "Expecting value".toList, t2)
  | some mubiData =>
      if env.secureStatus = 422 then
        (Except.error "Your session has expired. Please log in again.".toList, t2)
      else if env.secureStatus ≠ 200 then
        match mubiData with
        | JVal.jobj fields =>
            (Except.error ("API returned ".toList ++ intDigits env.secureStatus ++
              ": ".toList ++
              pyStr ((jLookup fields "message".toList).getD
                (JVal.jstr "Unknown error".toList))), t2)
        | _ => (Except.error "AttributeError".toList, t2)
      else
        match mubiData with
        | JVal.jobj fields =>
            match jLookup fields "url".toList with
            | some (JVal.jstr u) =>
                if u.isEmpty then
                  if fields.any (fun f => f.1 = "errors".toList) then
                    (Except.error ("API Error: ".toList ++
                      pyStr ((jLookup fields "errors".toList).getD JVal.jnull)), t2)
                  else
                    (Except.error
                      "No streaming URL found in response. Your session may have expired.".toList,
                      t2)
                else
                  let t3 := t2 ++ [ReqTag.manifest]
                  match findDefaultKid env.manifestBody with
                  | none => (Except.error "Failed to extract encryption key ID".toList, t3)
                  | some rawKid =>
                      match generatePssh (normalizeKid rawKid) with
                      | none =>
                          (Except.error "non-hexadecimal number found in fromhex() arg".toList,
                            t3)
                      | some pssh =>
                          if dt.isEmpty then
                            (Except.error "Missing required dt-custom-data header".toList, t3)
                          else
                            match fetchDecryptionKey pssh dt env.cdmNet with
                            | Except.error e => (Except.error e, t3 ++ [ReqTag.keyExchange])
                            | Except.ok k => (Except.ok (k, u), t3 ++ [ReqTag.keyExchange])
            | some v =>
                if pyTruthy v then (Except.error "InvalidURL".toList, t2)
                else if fields.any (fun f => f.1 = "errors".toList) then
                  (Except.error ("API Error: ".toList ++
                    pyStr ((jLookup fields "errors".toList).getD JVal.jnull)), t2)
                else
                  (Except.error
                    "No streaming URL found in response. Your session may have expired.".toList,
                    t2)
            | none =>
                if fields.any (fun f => f.1 = "errors".toList) then
                  (Except.error ("API Error: ".toList ++
                    pyStr ((jLookup fields "errors".toList).getD JVal.jnull)), t2)
                else
                  (Except.error
                    "No streaming URL found in response. Your session may have expired.".toList,
                    t2)
        | _ => (Except.error "AttributeError".toList, t2)

/-- DownloadManager._get_encryption_info over an abstract HTTP environment:
header preparation (with the dt-custom-data re-encode of _prepare_headers and
the presence check), the film-id extraction from the URL, the availability
check, and then the rest of the pipeline.  Returns the raised ValueError
message or the (decryption key, secure url) pair, together with the ordered
list of requests issued. -/
def getEncryptionInfo (authDt : Option (List Char)) (env : HttpEnv) (apiUrl : List Char) :
    Except (List Char) (List Char × List Char) × List ReqTag :=
  match authDt with
  | none => (Except.error "Missing required dt-custom-data header".toList, [])
  | some dt0 =>
      match decodeCtxB64 dt0 with
      | none => (Except.error "Failed to prepare headers".toList, [])
      | some v =>
          let dt := b64encodeBytes (bytesOfChars (jsonDumps v))
          if (pySplitChar '/' apiUrl).length < 3 then
            (Except.error "IndexError: list index out of range".toList, [])
          else
            match jsonLoads env.checkBody with
            | none => (Except.error "Expecting value".toList, [ReqTag.filmCheck])
            | some checkData =>
                match pyMem "available".toList checkData with
                | none => (Except.error "TypeError".toList, [ReqTag.filmCheck])
                | some hasAvail =>
                    if hasAvail then
                      match jSubscript checkData "available".toList with
                      | none => (Except.error "TypeError".toList, [ReqTag.filmCheck])
                      | some av =>
                          if pyTruthy av then getEncryptionInfoAfterCheck dt env
                          else
                            (Except.error "This film is not available in your region".toList,
                              [ReqTag.filmCheck])
                    else getEncryptionInfoAfterCheck dt env

/-- A session-context value whose base64 decoding succeeds, for exercising
the pipeline. -/
def dtB64sample : List Char := b64encodeBytes (bytesOfChars "\x7b\"sessionId\": \"s1\"\x7d".toList)

/-- An environment whose manifest carries default_KID="aabb" (four hex
characters) and whose key service answers with one structured pair. -/
def shortKidEnv : HttpEnv :=
  { checkBody := "\x7b\"available\": true\x7d".toList
    secureStatus := 200
    secureBody := "\x7b\"url\": \"https://m.example/stream.mpd\"\x7d".toList
    manifestBody := "<MPD cenc:default_KID=\"aabb\"></MPD>".toList
    cdmNet := fun _ => PostOutcome.response 200
      "\x7b\"keys\": [\x7b\"kid\": \"abcd1234abcd1234\", \"key\": \"efef5678efef5678\"\x7d]\x7d".toList }

/-- C3, counterexample: a manifest KID that strips to the 4-hex-character
string aabb is not rejected anywhere: normalization only removes hyphens, a
blob is built from the malformed KID, the key exchange is still issued, and
the pipeline returns a key, with no InvalidKeyIdError at any point. -/
theorem short_kid_not_rejected :
    normalizeKid "aabb".toList = "aabb".toList ∧
    ("aabb".toList).length ≠ 32 ∧
    generatePssh "aabb".toList ≠ none ∧
    getEncryptionInfo (some dtB64sample) shortKidEnv
        "https://api.mubi.com/v3/films/123/viewing/secure_url".toList =
      (Except.ok ("key_id=abcd1234abcd1234:key=efef5678efef5678".toList,
          "https://m.example/stream.mpd".toList),
        [ReqTag.filmCheck, ReqTag.secureUrl, ReqTag.manifest, ReqTag.keyExchange]) := by
  refine ⟨rfl, by decide, by decide, ?_⟩
  rfl

/-- C3, amended: KID normalization strips exactly the hyphen characters, and
no length or charset validation follows: every stripped value that is
even-length lowercase hex, whatever its length, is accepted and a blob is
built from it; only a value that fails hex decoding makes the operation fail,
and that failure arises inside blob construction, not in a prior check. -/
theorem normalize_kid_strips_hyphens_no_validation (raw : List Char)
    (hhex : ∀ c ∈ normalizeKid raw, isLowerHexDigit c = true)
    (heven : (normalizeKid raw).length % 2 = 0) :
    normalizeKid raw = raw.filter (fun c => c ≠ '-') ∧
    ∃ b, generatePssh (normalizeKid raw) = some b := by
  constructor
  · exact pyReplaceChar_empty_eq_filter '-' raw
  · have hs := hexDecode_isSome (normalizeKid raw) hhex heven
    obtain ⟨bs, hbs⟩ := Option.isSome_iff_exists.mp hs
    refine ⟨b64encodeBytes (psshLead ++ systemIdBytes ++ ([] : List Nat) ++ bs), ?_⟩
    simp [generatePssh, hbs]

/-- Witness for the amended C3 theorem at the hyphenated 4-hex-character
input aa-bb, which is accepted although its stripped length is 4. -/
theorem normalize_kid_witness :
    normalizeKid "aa-bb".toList = "aa-bb".toList.filter (fun c => c ≠ '-') ∧
    ∃ b, generatePssh (normalizeKid "aa-bb".toList) = some b :=
  normalize_kid_strips_hyphens_no_validation "aa-bb".toList (by decide) (by decide)

/-- C8: whenever the film-availability check reports the title unavailable
(the available field present and falsy), _get_encryption_info raises the
region error at that point: the availability check is the only request
issued, so no secure-url fetch, no manifest fetch, no blob construction and
no key-exchange request ever happens for the title. -/
theorem region_restricted_halts_before_key_exchange
    (dt0 : List Char) (v cd av : JVal) (env : HttpEnv) (apiUrl : List Char)
    (hdec : decodeCtxB64 dt0 = some v)
    (hparts : ¬ (pySplitChar '/' apiUrl).length < 3)
    (hcheck : jsonLoads env.checkBody = some cd)
    (hmem : pyMem "available".toList cd = some true)
    (hsub : jSubscript cd "available".toList = some av)
    (hfalsy : pyTruthy av = false) :
    getEncryptionInfo (some dt0) env apiUrl =
      (Except.error "This film is not available in your region".toList,
        [ReqTag.filmCheck]) ∧
    ReqTag.keyExchange ∉ (getEncryptionInfo (some dt0) env apiUrl).2 := by
  have hmain : getEncryptionInfo (some dt0) env apiUrl =
      (Except.error "This film is not available in your region".toList,
        [ReqTag.filmCheck]) := by
    simp only [getEncryptionInfo, hdec]
    rw [if_neg hparts]
    simp only [hcheck, hmem, hsub, hfalsy]
    simp
  refine ⟨hmain, ?_⟩
  rw [hmain]
  decide

/-- Witness for the C8 theorem at a concrete region-restricted environment. -/
theorem region_restricted_witness :
    getEncryptionInfo (some dtB64sample)
        { checkBody := "\x7b\"available\": false\x7d".toList
          secureStatus := 200
          secureBody := "\x7b\"url\": \"https://m.example/stream.mpd\"\x7d".toList
          manifestBody := "<MPD cenc:default_KID=\"aabb\"></MPD>".toList
          cdmNet := fun _ => PostOutcome.response 200 "ok".toList }
        "https://api.mubi.com/v3/films/123/viewing/secure_url".toList =
      (Except.error "This film is not available in your region".toList,
        [ReqTag.filmCheck]) ∧
    ReqTag.keyExchange ∉ (getEncryptionInfo (some dtB64sample)
        { checkBody := "\x7b\"available\": false\x7d".toList
          secureStatus := 200
          secureBody := "\x7b\"url\": \"https://m.example/stream.mpd\"\x7d".toList
          manifestBody := "<MPD cenc:default_KID=\"aabb\"></MPD>".toList
          cdmNet := fun _ => PostOutcome.response 200 "ok".toList }
        "https://api.mubi.com/v3/films/123/viewing/secure_url".toList).2 :=
  region_restricted_halts_before_key_exchange dtB64sample
    (JVal.jobj [("sessionId".toList, JVal.jstr "s1".toList)])
    (JVal.jobj [("available".toList, JVal.jbool false)]) (JVal.jbool false)
    _ _ rfl (by decide) rfl rfl rfl rfl

/-! ## Decryption Orchestrator track loop (_process_additional_files) -/

/-- Python str.endswith. -/
def listEnds (pat s : List Char) : Bool := listStarts pat.reverse s.reverse

/-- A lowercase ASCII letter. -/
def isLowerAlpha (c : Char) : Bool := decide (97 ≤ c.toNat ∧ c.toNat ≤ 122)

/-- The audio-track match of _process_additional_files: re.match anchors
re.escape(title), a dot, at least two lowercase letters and ".m4a" at the
start of the filename (re.match allows trailing characters), and the language
is the greedy letter run; the second regex that extracts the group captures
that same run for every filename the anchored match accepts. -/
def audioLang (title fn : List Char) : Option (List Char) :=
  if listStarts title fn then
    match fn.drop title.length with
    | '.' :: rest =>
        let lang := rest.takeWhile isLowerAlpha
        if 2 ≤ lang.length ∧ listStarts ".m4a".toList (rest.drop lang.length) = true then
          some lang
        else none
    | _ => none
  else none

/-- The file-system slice the loop touches: names in the download folder and
names in the destination directory. -/
structure FState where
  downloads : List (List Char)
  dest : List (List Char)

/-- The output name shaka-packager writes for one audio language. -/
def audioOutName (lang : List Char) : List Char :=
  "decrypted-audio.".toList ++ lang ++ ".m4a".toList

/-- One iteration of the loop for one directory entry: the subtitle branch
moves a matching .srt file; the audio branch runs the decryption tool
(modelled by the oracle deciding whether the expected output appears),
verifies that the output exists, and only then removes the encrypted source;
a failed verification is recorded and the loop continues.  `Except.error`
models an uncaught OSError from os.remove on a missing source. -/
def processOneFile (title : List Char) (decryptOk : List Char → Bool)
    (st : FState) (warns processed : List (List Char)) (fn : List Char) :
    Except (List Char) (FState × List (List Char) × List (List Char)) :=
  let sub := listEnds ".srt".toList fn && listOccurs title fn
  let st1 : FState := if sub then ⟨st.downloads.erase fn, st.dest ++ [fn]⟩ else st
  let pr1 := if sub then processed ++ [fn] else processed
  match audioLang title fn with
  | none => Except.ok (st1, warns, pr1)
  | some lang =>
      let out := audioOutName lang
      let st2 : FState :=
        if decryptOk fn then ⟨st1.downloads, st1.dest ++ [out]⟩ else st1
      if out ∈ st2.dest then
        if fn ∈ st2.downloads then
          Except.ok (⟨st2.downloads.erase fn, st2.dest⟩, warns, pr1 ++ [out])
        else Except.error "FileNotFoundError".toList
      else Except.ok (st2, warns ++ [lang], pr1)

/-- The loop of _process_additional_files over a directory snapshot. -/
def processFilesLoop (title : List Char) (decryptOk : List Char → Bool) :
    List (List Char) → FState → List (List Char) → List (List Char) →
    Except (List Char) (FState × List (List Char) × List (List Char))
  | [], st, warns, processed => Except.ok (st, warns, processed)
  | fn :: rest, st, warns, processed =>
      match processOneFile title decryptOk st warns processed fn with
      | Except.error e => Except.error e
      | Except.ok (st', warns', processed') =>
          processFilesLoop title decryptOk rest st' warns' processed'

/-- DownloadManager._process_additional_files: iterate over the snapshot of
the download folder, then remove the leftover source video when present. -/
def processAdditionalFiles (title : List Char) (decryptOk : List Char → Bool)
    (st : FState) :
    Except (List Char) (FState × List (List Char) × List (List Char)) :=
  match processFilesLoop title decryptOk st.downloads st [] [] with
  | Except.error e => Except.error e
  | Except.ok (st', warns, processed) =>
      if (title ++ ".mp4".toList) ∈ st'.downloads then
        Except.ok (⟨st'.downloads.erase (title ++ ".mp4".toList), st'.dest⟩, warns, processed)
      else Except.ok (st', warns, processed)

theorem listStarts_append_self (p q : List Char) : listStarts p (p ++ q) = true := by
  induction p with
  | nil => rfl
  | cons x xs ih => simp [listStarts, ih]

theorem audioOutName_inj {l1 l2 : List Char} (h : audioOutName l1 = audioOutName l2) :
    l1 = l2 := by
  unfold audioOutName at h
  rw [List.append_assoc, List.append_assoc] at h
  have h1 := List.append_cancel_left h
  exact List.append_cancel_right h1

theorem audioLang_not_mp4 (title fn : List Char) {l : List Char}
    (h : audioLang title fn = some l) : fn ≠ title ++ ".mp4".toList := by
  intro hf
  subst hf
  unfold audioLang at h
  rw [if_pos (listStarts_append_self title _), List.drop_left] at h
  exact Option.noConfusion (show (none : Option (List Char)) = some l from h)

set_option maxHeartbeats 1000000 in
theorem processFilesLoop_spec (title : List Char) (decryptOk : List Char → Bool) :
    ∀ (listing : List (List Char)) (st : FState) (w p : List (List Char)),
      st.downloads.Nodup →
      listing.Nodup →
      (∀ fn ∈ listing, fn ∈ st.downloads) →
      (∀ fn ∈ listing, (listEnds ".srt".toList fn && listOccurs title fn) = false) →
      listing.Pairwise (fun a b => ∀ la lb,
        audioLang title a = some la → audioLang title b = some lb → la ≠ lb) →
      (∀ fn ∈ listing, ∀ l, audioLang title fn = some l → audioOutName l ∉ st.dest) →
      ∃ st' w' p',
        processFilesLoop title decryptOk listing st w p = Except.ok (st', w', p') ∧
        st'.downloads.Nodup ∧
        (∀ x ∈ st'.downloads, x ∈ st.downloads) ∧
        (∀ x ∈ st.downloads, x ∉ listing → x ∈ st'.downloads) ∧
        (∀ y ∈ w, y ∈ w') ∧ (∀ y ∈ p, y ∈ p') ∧
        (∀ y ∈ p', y ∈ p ∨ ∃ fn ∈ listing, ∃ lf, audioLang title fn = some lf ∧
          decryptOk fn = true ∧ y = audioOutName lf) ∧
        (∀ fn ∈ listing, ∀ l, audioLang title fn = some l →
          (decryptOk fn = true → audioOutName l ∈ p' ∧ fn ∉ st'.downloads) ∧
          (decryptOk fn = false → fn ∈ st'.downloads ∧ l ∈ w' ∧
            (audioOutName l ∉ p → audioOutName l ∉ p'))) := by
  intro listing
  induction listing with
  | nil =>
      intro st w p hdn _ _ _ _ _
      refine ⟨st, w, p, rfl, hdn, fun x hx => hx, fun x hx _ => hx,
        fun y hy => hy, fun y hy => hy, fun y hy => Or.inl hy, ?_⟩
      intro g hg
      simp at hg
  | cons fn rest ih =>
      intro st w p hdn hnodup hmem hnosub hpair hfresh
      have hfn0 : fn ∈ st.downloads := hmem fn (by simp)
      have hsub : (listEnds ".srt".toList fn && listOccurs title fn) = false :=
        hnosub fn (by simp)
      have hnodup' : rest.Nodup := (List.nodup_cons.mp hnodup).2
      have hfnrest : fn ∉ rest := (List.nodup_cons.mp hnodup).1
      have hpair' : rest.Pairwise (fun a b => ∀ la lb,
          audioLang title a = some la → audioLang title b = some lb → la ≠ lb) :=
        (List.pairwise_cons.mp hpair).2
      have hpairhead := (List.pairwise_cons.mp hpair).1
      simp only [processFilesLoop, processOneFile, hsub, Bool.false_eq_true, ite_false,
        if_false]
      rcases hal : audioLang title fn with _ | lang
      · -- not an audio entry: no state change
        obtain ⟨st', w', p', hloop, hdn', hsh, hpres, hwm, hpm, hpc, hper⟩ :=
          ih st w p hdn hnodup' (fun g hg => hmem g (by simp [hg]))
            (fun g hg => hnosub g (by simp [hg])) hpair'
            (fun g hg l hl => hfresh g (by simp [hg]) l hl)
        refine ⟨st', w', p', hloop, hdn', hsh,
          fun x hx hnx => hpres x hx (by simp_all), hwm, hpm, ?_, ?_⟩
        · intro y hy
          rcases hpc y hy with hy1 | ⟨g, hg, lf, h1, h2, h3⟩
          · exact Or.inl hy1
          · exact Or.inr ⟨g, by simp [hg], lf, h1, h2, h3⟩
        · intro g hg l hl
          rcases List.mem_cons.mp hg with rfl | hg'
          · rw [hal] at hl
            exact Option.noConfusion hl
          · exact hper g hg' l hl
      · -- an audio entry
        by_cases hok : decryptOk fn = true
        · -- decryption verified: output recorded, then the source removed
          have hout : audioOutName lang ∈ st.dest ++ [audioOutName lang] := by simp
          simp only [hok, ite_true, if_true]
          rw [if_pos hout, if_pos hfn0]
          have hmem2 : ∀ g ∈ rest, g ∈ st.downloads.erase fn := fun g hg =>
            (List.mem_erase_of_ne (fun h : g = fn => hfnrest (h ▸ hg))).mpr
              (hmem g (by simp [hg]))
          have hfresh2 : ∀ g ∈ rest, ∀ l, audioLang title g = some l →
              audioOutName l ∉ st.dest ++ [audioOutName lang] := by
            intro g hg l hl
            simp only [List.mem_append, List.mem_singleton]
            rintro (hd | he)
            · exact hfresh g (by simp [hg]) l hl hd
            · exact hpairhead g hg lang l hal hl (audioOutName_inj he).symm
          obtain ⟨st', w', p', hloop, hdn', hsh, hpres, hwm, hpm, hpc, hper⟩ :=
            ih ⟨st.downloads.erase fn, st.dest ++ [audioOutName lang]⟩ w
              (p ++ [audioOutName lang]) (hdn.erase fn) hnodup' hmem2
              (fun g hg => hnosub g (by simp [hg])) hpair' hfresh2
          refine ⟨st', w', p', hloop, hdn', ?_, ?_, hwm,
            fun y hy => hpm y (by simp [hy]), ?_, ?_⟩
          · intro x hx
            exact List.mem_of_mem_erase (hsh x hx)
          · intro x hx hnx
            have hxfn : x ≠ fn := fun h => hnx (by simp [h])
            exact hpres x ((List.mem_erase_of_ne hxfn).mpr hx) (by simp_all)
          · intro y hy
            rcases hpc y hy with hy1 | ⟨g, hg, lf, h1, h2, h3⟩
            · rcases List.mem_append.mp hy1 with hy2 | hy2
              · exact Or.inl hy2
              · exact Or.inr ⟨fn, by simp, lang, hal, hok, by simpa using hy2⟩
            · exact Or.inr ⟨g, by simp [hg], lf, h1, h2, h3⟩
          · intro g hg l hl
            rcases List.mem_cons.mp hg with rfl | hg'
            · rw [hal] at hl
              injection hl with hl
              subst hl
              refine ⟨fun _ => ⟨hpm _ (by simp), ?_⟩, fun hko => absurd hok (by simp [hko])⟩
              intro hcontra
              exact hdn.not_mem_erase (hsh _ hcontra)
            · have hrec := hper g hg' l hl
              refine ⟨hrec.1, ?_⟩
              intro hko
              have hglang : l ≠ lang := fun h => hpairhead g hg' lang l hal hl h.symm
              refine ⟨(hrec.2 hko).1, (hrec.2 hko).2.1, ?_⟩
              intro hnp
              refine (hrec.2 hko).2.2 ?_
              simp only [List.mem_append, List.mem_singleton]
              rintro (hx | hx)
              · exact hnp hx
              · exact hglang (audioOutName_inj hx)
        · -- verification failed: warning recorded, source kept, loop goes on
          have hok' : decryptOk fn = false := by
            cases h : decryptOk fn
            · rfl
            · exact absurd h hok
          have houtn : audioOutName lang ∉ st.dest := hfresh fn (by simp) lang hal
          simp only [hok', Bool.false_eq_true, ite_false, if_false]
          rw [if_neg houtn]
          obtain ⟨st', w', p', hloop, hdn', hsh, hpres, hwm, hpm, hpc, hper⟩ :=
            ih st (w ++ [lang]) p hdn hnodup' (fun g hg => hmem g (by simp [hg]))
              (fun g hg => hnosub g (by simp [hg])) hpair'
              (fun g hg l hl => hfresh g (by simp [hg]) l hl)
          refine ⟨st', w', p', hloop, hdn', hsh,
            fun x hx hnx => hpres x hx (by simp_all),
            fun y hy => hwm y (by simp [hy]), hpm, ?_, ?_⟩
          · intro y hy
            rcases hpc y hy with hy1 | ⟨g, hg, lf, h1, h2, h3⟩
            · exact Or.inl hy1
            · exact Or.inr ⟨g, by simp [hg], lf, h1, h2, h3⟩
          · intro g hg l hl
            rcases List.mem_cons.mp hg with rfl | hg'
            · rw [hal] at hl
              injection hl with hl
              subst hl
              refine ⟨fun hko => absurd hko hok, fun _ => ?_⟩
              refine ⟨hpres g hfn0 hfnrest, hwm lang (by simp), ?_⟩
              intro hnp hcontra
              rcases hpc _ hcontra with hy1 | ⟨g, hg, lf, h1, h2, h3⟩
              · exact hnp hy1
              · have hlf : lang = lf := audioOutName_inj h3
                subst hlf
                exact hpairhead g hg lang lang hal h1 rfl
            · exact hper g hg' l hl

/-- C9: over a clean download folder (distinct names, distinct track
languages, outputs not pre-existing, no subtitle/audio overlap), the track
loop of _process_additional_files completes without aborting; an encrypted
audio source is removed exactly for the tracks whose decrypted output was
verified to exist, and a track failing verification keeps its source, is
reported with a warning and leaves no processed output, while the other
tracks are processed unaffected. -/
theorem audio_sources_removed_only_after_verify
    (title : List Char) (decryptOk : List Char → Bool) (st : FState)
    (hdn : st.downloads.Nodup)
    (hnosub : ∀ fn ∈ st.downloads,
      (listEnds ".srt".toList fn && listOccurs title fn) = false)
    (hlangs : st.downloads.Pairwise (fun a b => ∀ la lb,
      audioLang title a = some la → audioLang title b = some lb → la ≠ lb))
    (hfresh : ∀ fn ∈ st.downloads, ∀ l, audioLang title fn = some l →
      audioOutName l ∉ st.dest) :
    ∃ st' warns processed,
      processAdditionalFiles title decryptOk st = Except.ok (st', warns, processed) ∧
      ∀ fn ∈ st.downloads, ∀ l, audioLang title fn = some l →
        (decryptOk fn = true → audioOutName l ∈ processed ∧ fn ∉ st'.downloads) ∧
        (decryptOk fn = false → fn ∈ st'.downloads ∧ l ∈ warns ∧
          audioOutName l ∉ processed) := by
  obtain ⟨st1, w1, p1, hloop, hdn1, hsh, hpres, hwm, hpm, hpc, hper⟩ :=
    processFilesLoop_spec title decryptOk st.downloads st [] [] hdn hdn
      (fun g hg => hg) hnosub hlangs hfresh
  simp only [processAdditionalFiles, hloop]
  by_cases hmp4 : (title ++ ".mp4".toList) ∈ st1.downloads
  · rw [if_pos hmp4]
    refine ⟨_, w1, p1, rfl, ?_⟩
    intro fn hfn l hl
    have h := hper fn hfn l hl
    constructor
    · intro hok
      refine ⟨(h.1 hok).1, ?_⟩
      intro hc
      exact (h.1 hok).2 (List.mem_of_mem_erase hc)
    · intro hko
      have h2 := h.2 hko
      refine ⟨?_, h2.2.1, fun hc => (h2.2.2 (by simp)) hc⟩
      exact (List.mem_erase_of_ne (audioLang_not_mp4 title fn hl)).mpr h2.1
  · rw [if_neg hmp4]
    refine ⟨st1, w1, p1, rfl, ?_⟩
    intro fn hfn l hl
    have h := hper fn hfn l hl
    exact ⟨h.1, fun hko =>
      ⟨(h.2 hko).1, (h.2 hko).2.1, fun hc => ((h.2 hko).2.2 (by simp)) hc⟩⟩

theorem audioLang_pair_ne {t a b la0 lb0 : List Char}
    (ha : audioLang t a = some la0) (hb : audioLang t b = some lb0) (hne : la0 ≠ lb0) :
    ∀ la lb, audioLang t a = some la → audioLang t b = some lb → la ≠ lb := by
  intro la lb h1 h2
  rw [ha] at h1
  rw [hb] at h2
  injection h1 with h1
  injection h2 with h2
  subst h1
  subst h2
  exact hne

/-- Witness for the C9 theorem: three audio tracks with the fr track failing
verification; the run completes, en and de are processed and their sources
removed, fr keeps its source and is reported. -/
theorem audio_sources_witness :
    ∃ st' warns processed,
      processAdditionalFiles "T".toList
          (fun fn => decide (fn ≠ "T.fr.m4a".toList))
          ⟨["T.en.m4a".toList, "T.fr.m4a".toList, "T.de.m4a".toList], []⟩ =
        Except.ok (st', warns, processed) ∧
      ∀ fn ∈ ["T.en.m4a".toList, "T.fr.m4a".toList, "T.de.m4a".toList],
        ∀ l, audioLang "T".toList fn = some l →
        (decide (fn ≠ "T.fr.m4a".toList) = true →
          audioOutName l ∈ processed ∧ fn ∉ st'.downloads) ∧
        (decide (fn ≠ "T.fr.m4a".toList) = false →
          fn ∈ st'.downloads ∧ l ∈ warns ∧ audioOutName l ∉ processed) :=
  audio_sources_removed_only_after_verify "T".toList
    (fun fn => decide (fn ≠ "T.fr.m4a".toList))
    ⟨["T.en.m4a".toList, "T.fr.m4a".toList, "T.de.m4a".toList], []⟩
    (by decide) (by decide)
    (by
      refine List.Pairwise.cons ?_ (List.Pairwise.cons ?_
        (List.Pairwise.cons ?_ List.Pairwise.nil))
      · intro b hb
        rcases List.mem_cons.mp hb with rfl | hb
        · exact audioLang_pair_ne rfl rfl (by decide)
        · rcases List.mem_cons.mp hb with rfl | hb
          · exact audioLang_pair_ne rfl rfl (by decide)
          · simp at hb
      · intro b hb
        rcases List.mem_cons.mp hb with rfl | hb
        · exact audioLang_pair_ne rfl rfl (by decide)
        · simp at hb
      · intro b hb
        simp at hb)
    (by
      intro fn hfn l hl
      simp)
